import Mathlib

/-!
# A shallow embedding of the 0xlang compiler front end and interpreter

This file embeds, in Lean 4, the parts of the 0xlang repository that the
verified claims are about:

* `src/lexer.ts` — the function `lex`;
* `src/parser.ts` — the recursive-descent `Parser` methods;
* `src/typecheck.ts` — `TypeChecker.check`, `typeExists`, `isSubtype`;
* `src/runtime.ts` — the `Runtime` class: `execStmt`, `evalExpr`,
  `findMethod`, `valToString`, `run`.

Conventions used throughout:

* TypeScript `Map` objects are embedded as association lists
  (`List (String × α)`) with `Map.set` semantics: an existing key is
  updated in place (keeping its position), a new key is appended.
* JavaScript numbers are embedded by `JSNum`: every numeric value the
  interpreter can produce is either an integer or one of the IEEE-754
  specials `Infinity`, `-Infinity`, `NaN` (integer literals are integers,
  and every arithmetic result is floored integer arithmetic or a special).
  Double-precision arithmetic is exact on integers of magnitude below
  2^53; the embedding idealises it as exact integer arithmetic.
* The heap of interpreter objects is explicit: `Value.objRef` holds the
  class name (which TypeScript stores on the object and never mutates)
  and an index into the heap, so that aliased field mutation is faithful.
* Unbounded loops and non-structural recursion (the interpreter's method
  calls, the lexer's main loop, the parser, `isSubtype`'s super-chain
  walk, `findMethod`) are given explicit fuel; exhausted fuel is the
  distinguished outcome `RErr.fuelOut`, disjoint from a thrown runtime
  error `RErr.thrown`.
-/

namespace Oxlang

/-! ## Association lists with TypeScript `Map` semantics -/

/-- `Map.get`: the value at the first binding of `k`, if any. -/
def alGet {α : Type} : List (String × α) → String → Option α
  | [], _ => none
  | (k', v') :: rest, k => if k' = k then some v' else alGet rest k

/-- `Map.has`. -/
def alHas {α : Type} (m : List (String × α)) (k : String) : Bool :=
  (alGet m k).isSome

/-- `Map.set`: update the first binding of `k` in place, else append. -/
def alSet {α : Type} : List (String × α) → String → α → List (String × α)
  | [], k, v => [(k, v)]
  | (k', v') :: rest, k, v =>
      if k' = k then (k, v) :: rest else (k', v') :: alSet rest k v

/-! ## JavaScript numbers restricted to the reachable payloads -/

/-- A JavaScript number as the 0xlang interpreter can produce it: an exact
integer, or one of the IEEE-754 specials. -/
inductive JSNum : Type
  | int (n : Int)
  | posInf
  | negInf
  | nan
deriving DecidableEq, Repr

namespace JSNum

/-- IEEE addition `a + b` on the reachable payloads. -/
def add : JSNum → JSNum → JSNum
  | .int a, .int b => .int (a + b)
  | .nan, _ => .nan
  | _, .nan => .nan
  | .posInf, .negInf => .nan
  | .negInf, .posInf => .nan
  | .posInf, _ => .posInf
  | _, .posInf => .posInf
  | .negInf, _ => .negInf
  | _, .negInf => .negInf

/-- IEEE subtraction `a - b`. -/
def sub : JSNum → JSNum → JSNum
  | .int a, .int b => .int (a - b)
  | .nan, _ => .nan
  | _, .nan => .nan
  | .posInf, .posInf => .nan
  | .negInf, .negInf => .nan
  | .posInf, _ => .posInf
  | .negInf, _ => .negInf
  | .int _, .posInf => .negInf
  | .int _, .negInf => .posInf

/-- IEEE multiplication `a * b`. -/
def mul : JSNum → JSNum → JSNum
  | .int a, .int b => .int (a * b)
  | .nan, _ => .nan
  | _, .nan => .nan
  | .posInf, .posInf => .posInf
  | .posInf, .negInf => .negInf
  | .negInf, .posInf => .negInf
  | .negInf, .negInf => .posInf
  | .posInf, .int b => if 0 < b then .posInf else if b < 0 then .negInf else .nan
  | .int a, .posInf => if 0 < a then .posInf else if a < 0 then .negInf else .nan
  | .negInf, .int b => if 0 < b then .negInf else if b < 0 then .posInf else .nan
  | .int a, .negInf => if 0 < a then .negInf else if a < 0 then .posInf else .nan

/-- `Math.floor(a / b)`: the composite the interpreter computes for `/`.
For two integers with `b ≠ 0` the floored IEEE quotient is exact floor
division; a zero divisor yields the IEEE special (whose floor is itself). -/
def floorDiv : JSNum → JSNum → JSNum
  | .int a, .int b =>
      if b = 0 then (if 0 < a then .posInf else if a < 0 then .negInf else .nan)
      else .int (Int.fdiv a b)
  | .nan, _ => .nan
  | _, .nan => .nan
  | .posInf, .posInf => .nan
  | .posInf, .negInf => .nan
  | .negInf, .posInf => .nan
  | .negInf, .negInf => .nan
  | .posInf, .int b => if 0 ≤ b then .posInf else .negInf
  | .negInf, .int b => if 0 ≤ b then .negInf else .posInf
  | .int _, .posInf => .int 0
  | .int _, .negInf => .int 0

/-- IEEE negation (JavaScript unary `-`); `-0` is identified with `0`. -/
def neg : JSNum → JSNum
  | .int a => .int (-a)
  | .posInf => .negInf
  | .negInf => .posInf
  | .nan => .nan

/-- JavaScript strict equality `===` on numbers (`NaN === NaN` is false). -/
def seq : JSNum → JSNum → Bool
  | .int a, .int b => a = b
  | .posInf, .posInf => true
  | .negInf, .negInf => true
  | _, _ => false

/-- JavaScript `<` (false whenever `NaN` is involved). -/
def lt : JSNum → JSNum → Bool
  | .nan, _ => false
  | _, .nan => false
  | .int a, .int b => a < b
  | .posInf, _ => false
  | .negInf, .negInf => false
  | .negInf, _ => true
  | .int _, .posInf => true
  | .int _, .negInf => false

/-- JavaScript `<=` (false whenever `NaN` is involved, else `¬ (b < a)`). -/
def le (a b : JSNum) : Bool :=
  match a, b with
  | .nan, _ => false
  | _, .nan => false
  | _, _ => !(lt b a)

/-- `String(n)` for the reachable payloads. -/
def toStr : JSNum → String
  | .int n => toString n
  | .posInf => "Infinity"
  | .negInf => "-Infinity"
  | .nan => "NaN"

end JSNum

/-! ## Tokens and the lexer (`src/lexer.ts`) -/

inductive TokTag : Type
  | num | ident | str | kw | sym | eof
deriving DecidableEq, Repr

/-- One token. TypeScript's `eof` token has no `value` field; its embedded
`value` is `""`. -/
structure Token : Type where
  tag : TokTag
  value : String
  line : Nat
  column : Nat
deriving DecidableEq, Repr

/-- The keyword set of `src/lexer.ts`. -/
def keywords : List String :=
  ["class", "extends", "constructor", "let", "new", "return", "super",
   "this", "true", "false", "if", "else", "import", "as"]

/-- The regex `/\s/` test, restricted to the ASCII whitespace the sources
use (JavaScript `\s` also matches `\f`, `\v` and Unicode spaces). -/
def isWsChar (c : Char) : Bool :=
  c = ' ' || c = '\t' || c = '\n' || c = '\r'

def isDigitChar (c : Char) : Bool :=
  '0' ≤ c && c ≤ '9'

def isIdentStartChar (c : Char) : Bool :=
  ('A' ≤ c && c ≤ 'Z') || ('a' ≤ c && c ≤ 'z') || c = '_'

def isIdentChar (c : Char) : Bool :=
  isIdentStartChar c || isDigitChar c

/-- The two-character symbols preferred over one-character symbols. -/
def twoCharSyms : List String :=
  ["==", "!=", "<=", ">=", "&&", "||", "->"]

/-- The string-literal scan (lexer lines 47–51): starting just after the
opening quote, decode until the matching unescaped quote or end of input.
Returns the decoded content and the characters after the closing quote
(empty when the literal is unterminated, matching `i = j + 1` running past
the end of the input). A trailing lone backslash is consumed and adds
nothing, exactly as `j++` past the end does. -/
def strScan (quote : Char) : List Char → List Char × List Char
  | [] => ([], [])
  | c :: cs =>
      if c = quote then ([], cs)
      else if c = '\\' then
        match cs with
        | [] => ([], [])
        | d :: ds =>
            let r := strScan quote ds
            (d :: r.1, r.2)
      else
        let r := strScan quote cs
        (c :: r.1, r.2)

/-- The main lexer loop of `lex`, one fuel unit per iteration of the
`while (i < input.length)` loop (each iteration consumes at least one
character, so `input.length + 1` fuel always suffices). The stale-column
behaviours of the source are preserved: a line comment does not advance
`column`; the string branch advances `column` by `i - (j - str.length)`,
which algebraically is `str.length + 1` since `i = j + 1` at that point,
and never advances `line`. -/
def lexLoop : Nat → List Char → Nat → Nat → List Token
  | 0, _, line, column => [⟨.eof, "", line, column⟩]
  | _fuel + 1, [], line, column => [⟨.eof, "", line, column⟩]
  | fuel + 1, c :: cs, line, column =>
      if isWsChar c then
        if c = '\n' then lexLoop fuel cs (line + 1) 1
        else lexLoop fuel cs line (column + 1)
      else if c = '/' && cs.head? = some '/' then
        -- comment: advance to (but not past) the next newline; column stale
        lexLoop fuel (cs.dropWhile (fun d => d ≠ '\n')) line column
      else if isDigitChar c then
        let ds := (c :: cs).takeWhile isDigitChar
        let rest := (c :: cs).dropWhile isDigitChar
        ⟨.num, String.mk ds, line, column⟩ ::
          lexLoop fuel rest line (column + ds.length)
      else if c = '"' || c = '\'' then
        let r := strScan c cs
        ⟨.str, String.mk r.1, line, column⟩ ::
          lexLoop fuel r.2 line (column + r.1.length + 1)
      else if isIdentStartChar c then
        let ws := (c :: cs).takeWhile isIdentChar
        let rest := (c :: cs).dropWhile isIdentChar
        let word := String.mk ws
        let tag := if keywords.contains word then TokTag.kw else TokTag.ident
        ⟨tag, word, line, column⟩ :: lexLoop fuel rest line (column + ws.length)
      else
        match cs with
        | c2 :: cs2 =>
            let two := String.mk [c, c2]
            if twoCharSyms.contains two then
              ⟨.sym, two, line, column⟩ :: lexLoop fuel cs2 line (column + 2)
            else
              ⟨.sym, String.mk [c], line, column⟩ ::
                lexLoop fuel cs line (column + 1)
        | [] =>
            ⟨.sym, String.mk [c], line, column⟩ ::
              lexLoop fuel [] line (column + 1)

/-- `lex(input)`. -/
def lex (input : String) : List Token :=
  lexLoop (input.length + 1) input.toList 1 1

/-! ## The AST (`src/ast.ts`) -/

/-- `Param`. -/
structure Param : Type where
  name : String
  typeName : String
deriving DecidableEq, Repr

/-- `Expr`. `IntLiteral` carries a JavaScript number; the parser only ever
stores the natural value of a digit run, but the field admits any integer
(floats never arise in the pipeline). -/
inductive Expr : Type
  | intLiteral (value : Int)
  | stringLiteral (value : String)
  | boolLiteral (value : Bool)
  | identifier (name : String)
  | binaryExpr (op : String) (left right : Expr)
  | unaryExpr (op : String) (expr : Expr)
  | callExpr (callee : Expr) (args : List Expr)
  | newExpr (className : String) (args : List Expr)
  | fieldAccessExpr (obj : Expr) (field : String)
  | thisExpr
  | superExpr (method : Option String)
  | assignmentExpr (target value : Expr)

mutual

/-- `Stmt`. -/
inductive Stmt : Type
  | importStmt (module : String) (al : Option String)
  | classDecl (name : String) (superName : Option String)
      (members : List ClassMember)
  | varDecl (name : String) (typeName : String) (init : Option Expr)
  | funcDecl (name : String) (params : List Param) (returnType : String)
      (body : List Stmt)
  | exprStmt (expr : Expr)
  | returnStmt (expr : Option Expr)
  | ifStmt (condition : Expr) (thenBody : List Stmt)
      (elseBody : Option (List Stmt))

/-- `ClassMember`. -/
inductive ClassMember : Type
  | fieldDecl (name : String) (typeName : String)
  | methodDecl (name : String) (params : List Param) (returnType : String)
      (body : List Stmt)
  | ctorDecl (params : List Param) (body : List Stmt)

end

/-- `Program`. -/
structure Program : Type where
  body : List Stmt

/-! ## The parser (`src/parser.ts`)

The `Parser` class holds the token array and a cursor `pos`; each method
is embedded as a function from the token list and cursor to an
`Except`-value carrying the parsed node and the new cursor.  Thrown
`CompileError`s become `PFail.perr` with the offending token's position;
`PFail.pfuel` is the fuel-exhaustion artifact of the embedding. -/

/-- The ASCII apostrophe, quoted around token texts in parser messages. -/
def sq : String := String.mk ['\x27']

inductive PFail : Type
  | perr (msg : String) (line : Nat) (column : Nat)
  | pfuel
deriving DecidableEq, Repr

/-- `this.tokens[this.pos]`.  `lex` always terminates the stream with an
`eof` token and every parser method stops there, so the out-of-range
default is unreachable. -/
def peekTok (toks : List Token) (pos : Nat) : Token :=
  (toks.get? pos).getD ⟨.eof, "", 0, 0⟩

/-- The TypeScript display of a token in error messages:
`t.type === 'eof' ? 'EOF' : (t as any).value || t.type` (a falsy — empty —
value falls back to the category name). -/
def tokenStr (t : Token) : String :=
  if t.tag = .eof then "EOF"
  else if t.value = "" then
    match t.tag with
    | .num => "num" | .ident => "ident" | .str => "str"
    | .kw => "kw" | .sym => "sym" | .eof => "eof"
  else t.value

/-- `makeError`: attach the peeked token's position. -/
def mkPErr (msg : String) (t : Token) : PFail :=
  .perr msg t.line t.column

def eatSym (v : String) (toks : List Token) (pos : Nat) : Except PFail Nat :=
  let t := peekTok toks pos
  if t.tag = .sym ∧ t.value = v then .ok (pos + 1)
  else .error (mkPErr ("Expected " ++ sq ++ v ++ sq ++ ", but got " ++
    sq ++ tokenStr t ++ sq) t)

def eatKw (v : String) (toks : List Token) (pos : Nat) : Except PFail Nat :=
  let t := peekTok toks pos
  if t.tag = .kw ∧ t.value = v then .ok (pos + 1)
  else .error (mkPErr ("Expected keyword " ++ sq ++ v ++ sq ++ ", but got " ++
    sq ++ tokenStr t ++ sq) t)

/-- `optionalSemi`: consume a `;` when present. -/
def optionalSemi (toks : List Token) (pos : Nat) : Nat :=
  let t := peekTok toks pos
  if t.tag = .sym ∧ t.value = ";" then pos + 1 else pos

def expectIdent (toks : List Token) (pos : Nat) :
    Except PFail (String × Nat) :=
  let t := peekTok toks pos
  if t.tag = .ident then .ok (t.value, pos + 1)
  else .error (mkPErr ("Expected identifier, but got " ++ sq ++ tokenStr t ++
    sq) t)

/-- `parseImport` (not recursive). -/
def parseImport (toks : List Token) (pos : Nat) : Except PFail (Stmt × Nat) := do
  let pos ← eatKw "import" toks pos
  let (m, pos) ← expectIdent toks pos
  let t := peekTok toks pos
  if t.tag = .kw ∧ t.value = "as" then
    let (al, pos) ← expectIdent toks (pos + 1)
    .ok (.importStmt m (some al), optionalSemi toks pos)
  else
    .ok (.importStmt m none, optionalSemi toks pos)

/-- The binary-operator set of `parseBinary`. -/
def binOps : List String :=
  ["+", "-", "*", "/", "==", "!=", "<", ">", "<=", ">="]

/-- Decimal value of a digit run, most significant first. -/
def digitsToNat : List Char → Nat → Nat
  | [], acc => acc
  | c :: cs, acc => digitsToNat cs (acc * 10 + (c.toNat - '0'.toNat))

/-- `Number(t.value)` for a `num` token (the lexer only produces runs of
ASCII digits there). -/
def numVal (s : String) : Int :=
  ((digitsToNat s.toList 0 : Nat) : Int)

mutual

/-- The `while (this.peek().type !== "eof")` loop of `parseProgram`. -/
def parseProgramLoop : Nat → List Token → Nat → List Stmt →
    Except PFail (List Stmt × Nat)
  | 0, _, _, _ => .error .pfuel
  | f + 1, toks, pos, acc =>
      if (peekTok toks pos).tag = .eof then .ok (acc, pos)
      else do
        let (s, pos') ← parseTopLevel f toks pos
        parseProgramLoop f toks pos' (acc ++ [s])
termination_by structural f _ _ _ => f

def parseTopLevel : Nat → List Token → Nat → Except PFail (Stmt × Nat)
  | 0, _, _ => .error .pfuel
  | f + 1, toks, pos =>
      let t := peekTok toks pos
      if t.tag = .kw ∧ t.value = "import" then parseImport toks pos
      else if t.tag = .kw ∧ t.value = "class" then parseClass f toks pos
      else if t.tag = .kw ∧ t.value = "let" then parseVarDecl f toks pos
      else parseExprStmt f toks pos

def parseClass : Nat → List Token → Nat → Except PFail (Stmt × Nat)
  | 0, _, _ => .error .pfuel
  | f + 1, toks, pos => do
      let pos ← eatKw "class" toks pos
      let (name, pos) ← expectIdent toks pos
      let t1 := peekTok toks pos
      let (sup, pos) ←
        if t1.tag = .kw ∧ t1.value = "extends" then do
          let (s, p) ← expectIdent toks (pos + 1)
          pure (some s, p)
        else pure ((none : Option String), pos)
      let pos ← eatSym "\x7b" toks pos
      let (members, pos) ← parseClassMembers f toks pos []
      let pos ← eatSym "\x7d" toks pos
      .ok (.classDecl name sup members, pos)

/-- The member loop of `parseClass`. -/
def parseClassMembers : Nat → List Token → Nat → List ClassMember →
    Except PFail (List ClassMember × Nat)
  | 0, _, _, _ => .error .pfuel
  | f + 1, toks, pos, acc =>
      let t := peekTok toks pos
      if t.tag = .sym ∧ t.value = "\x7d" then .ok (acc, pos)
      else if t.tag = .kw ∧ t.value = "constructor" then do
        let pos ← eatSym "(" toks (pos + 1)
        let (params, pos) ← parseParams f toks pos
        let pos ← eatSym ")" toks pos
        let pos ← eatSym "\x7b" toks pos
        let (body, pos) ← parseBlock f toks pos
        parseClassMembers f toks pos (acc ++ [.ctorDecl params body])
      else do
        let (id, pos) ← expectIdent toks pos
        let t2 := peekTok toks pos
        if t2.tag = .sym ∧ t2.value = ":" then do
          let (tyName, pos) ← expectIdent toks (pos + 1)
          parseClassMembers f toks (optionalSemi toks pos)
            (acc ++ [.fieldDecl id tyName])
        else if t2.tag = .sym ∧ t2.value = "(" then do
          let (params, pos) ← parseParams f toks (pos + 1)
          let pos ← eatSym ")" toks pos
          let pos ← eatSym ":" toks pos
          let (ret, pos) ← expectIdent toks pos
          let pos ← eatSym "\x7b" toks pos
          let (body, pos) ← parseBlock f toks pos
          parseClassMembers f toks pos (acc ++ [.methodDecl id params ret body])
        else
          .error (mkPErr
            "Unexpected class member. Expected method or field declaration" t2)
termination_by structural f _ _ _ => f

def parseParams : Nat → List Token → Nat → Except PFail (List Param × Nat)
  | 0, _, _ => .error .pfuel
  | f + 1, toks, pos =>
      let t := peekTok toks pos
      if t.tag = .sym ∧ t.value = ")" then .ok ([], pos)
      else parseParamsLoop f toks pos []

def parseParamsLoop : Nat → List Token → Nat → List Param →
    Except PFail (List Param × Nat)
  | 0, _, _, _ => .error .pfuel
  | f + 1, toks, pos, acc => do
      let (name, pos) ← expectIdent toks pos
      let pos ← eatSym ":" toks pos
      let (tyName, pos) ← expectIdent toks pos
      let acc := acc ++ [⟨name, tyName⟩]
      let t3 := peekTok toks pos
      if t3.tag = .sym ∧ t3.value = "," then parseParamsLoop f toks (pos + 1) acc
      else .ok (acc, pos)
termination_by structural f _ _ _ => f

/-- `parseBlock`: statements until `}`, then the `}` is consumed. -/
def parseBlock : Nat → List Token → Nat → Except PFail (List Stmt × Nat)
  | 0, _, _ => .error .pfuel
  | f + 1, toks, pos => do
      let (stmts, pos) ← parseBlockLoop f toks pos []
      let pos ← eatSym "\x7d" toks pos
      .ok (stmts, pos)
termination_by structural f _ _ => f

def parseBlockLoop : Nat → List Token → Nat → List Stmt →
    Except PFail (List Stmt × Nat)
  | 0, _, _, _ => .error .pfuel
  | f + 1, toks, pos, acc =>
      let t := peekTok toks pos
      if t.tag = .sym ∧ t.value = "\x7d" then .ok (acc, pos)
      else if t.tag = .kw ∧ t.value = "let" then do
        let (s, pos) ← parseVarDecl f toks pos
        parseBlockLoop f toks pos (acc ++ [s])
      else if t.tag = .kw ∧ t.value = "if" then do
        let (s, pos) ← parseIfStmt f toks pos
        parseBlockLoop f toks pos (acc ++ [s])
      else if t.tag = .kw ∧ t.value = "return" then do
        let pos := pos + 1
        let t2 := peekTok toks pos
        if t2.tag = .sym ∧ t2.value = ";" then
          parseBlockLoop f toks (optionalSemi toks pos)
            (acc ++ [.returnStmt none])
        else do
          let (e, pos) ← parseExpr f toks pos
          parseBlockLoop f toks (optionalSemi toks pos)
            (acc ++ [.returnStmt (some e)])
      else do
        let (s, pos) ← parseExprStmt f toks pos
        parseBlockLoop f toks pos (acc ++ [s])
termination_by structural f _ _ _ => f

def parseIfStmt : Nat → List Token → Nat → Except PFail (Stmt × Nat)
  | 0, _, _ => .error .pfuel
  | f + 1, toks, pos => do
      let pos ← eatKw "if" toks pos
      let pos ← eatSym "(" toks pos
      let (cond, pos) ← parseExpr f toks pos
      let pos ← eatSym ")" toks pos
      let pos ← eatSym "\x7b" toks pos
      let (thenBody, pos) ← parseBlock f toks pos
      let t := peekTok toks pos
      if t.tag = .kw ∧ t.value = "else" then do
        let pos ← eatSym "\x7b" toks (pos + 1)
        let (elseBody, pos) ← parseBlock f toks pos
        .ok (.ifStmt cond thenBody (some elseBody), pos)
      else
        .ok (.ifStmt cond thenBody none, pos)
termination_by structural f _ _ => f

def parseVarDecl : Nat → List Token → Nat → Except PFail (Stmt × Nat)
  | 0, _, _ => .error .pfuel
  | f + 1, toks, pos => do
      let pos ← eatKw "let" toks pos
      let (name, pos) ← expectIdent toks pos
      let pos ← eatSym ":" toks pos
      let (tyName, pos) ← expectIdent toks pos
      let t := peekTok toks pos
      if t.tag = .sym ∧ t.value = "=" then do
        let (init, pos) ← parseExpr f toks (pos + 1)
        .ok (.varDecl name tyName (some init), optionalSemi toks pos)
      else
        .ok (.varDecl name tyName none, optionalSemi toks pos)

def parseExprStmt : Nat → List Token → Nat → Except PFail (Stmt × Nat)
  | 0, _, _ => .error .pfuel
  | f + 1, toks, pos => do
      let (e, pos) ← parseExpr f toks pos
      .ok (.exprStmt e, optionalSemi toks pos)

def parseExpr : Nat → List Token → Nat → Except PFail (Expr × Nat)
  | 0, _, _ => .error .pfuel
  | f + 1, toks, pos => parseAssignment f toks pos
termination_by structural f _ _ => f

def parseAssignment : Nat → List Token → Nat → Except PFail (Expr × Nat)
  | 0, _, _ => .error .pfuel
  | f + 1, toks, pos => do
      let (left, pos) ← parseBinary f toks pos
      let t := peekTok toks pos
      if t.tag = .sym ∧ t.value = "=" then do
        let (right, pos) ← parseAssignment f toks (pos + 1)
        .ok (.assignmentExpr left right, pos)
      else .ok (left, pos)
termination_by structural f _ _ => f

def parseBinary : Nat → List Token → Nat → Except PFail (Expr × Nat)
  | 0, _, _ => .error .pfuel
  | f + 1, toks, pos => do
      let (left, pos) ← parseUnary f toks pos
      parseBinaryLoop f toks pos left
termination_by structural f _ _ => f

/-- The operator loop of `parseBinary`: one flat, left-associative tier. -/
def parseBinaryLoop : Nat → List Token → Nat → Expr →
    Except PFail (Expr × Nat)
  | 0, _, _, _ => .error .pfuel
  | f + 1, toks, pos, left =>
      let t := peekTok toks pos
      if t.tag = .sym ∧ binOps.contains t.value then do
        let (right, pos) ← parseUnary f toks (pos + 1)
        parseBinaryLoop f toks pos (.binaryExpr t.value left right)
      else .ok (left, pos)
termination_by structural f _ _ _ => f

def parseUnary : Nat → List Token → Nat → Except PFail (Expr × Nat)
  | 0, _, _ => .error .pfuel
  | f + 1, toks, pos =>
      let t := peekTok toks pos
      if t.tag = .sym ∧ (t.value = "-" ∨ t.value = "+") then do
        let (e, pos) ← parseUnary f toks (pos + 1)
        .ok (.unaryExpr t.value e, pos)
      else parsePrimary f toks pos
termination_by structural f _ _ => f

/-- The `while` suffix chain (`. Ident` or `( Args )`), inlined four times
in the source (`this`, `super`, `print`, identifier branches) and embedded
once. -/
def parseSuffix : Nat → List Token → Nat → Expr → Except PFail (Expr × Nat)
  | 0, _, _, _ => .error .pfuel
  | f + 1, toks, pos, e =>
      let t2 := peekTok toks pos
      if t2.tag = .sym ∧ t2.value = "." then do
        let (field, pos) ← expectIdent toks (pos + 1)
        parseSuffix f toks pos (.fieldAccessExpr e field)
      else if t2.tag = .sym ∧ t2.value = "(" then do
        let (args, pos) ← parseArgs f toks (pos + 1)
        let pos ← eatSym ")" toks pos
        parseSuffix f toks pos (.callExpr e args)
      else .ok (e, pos)
termination_by structural f _ _ _ => f

def parsePrimary : Nat → List Token → Nat → Except PFail (Expr × Nat)
  | 0, _, _ => .error .pfuel
  | f + 1, toks, pos =>
      let t := peekTok toks pos
      if t.tag = .num then
        .ok (.intLiteral (numVal t.value), pos + 1)
      else if t.tag = .str then .ok (.stringLiteral t.value, pos + 1)
      else if t.tag = .kw ∧ (t.value = "true" ∨ t.value = "false") then
        .ok (.boolLiteral (t.value = "true"), pos + 1)
      else if t.tag = .kw ∧ t.value = "this" then
        parseSuffix f toks (pos + 1) .thisExpr
      else if t.tag = .kw ∧ t.value = "super" then
        parseSuffix f toks (pos + 1) (.superExpr none)
      else if t.tag = .kw ∧ t.value = "new" then do
        let (className, pos) ← expectIdent toks (pos + 1)
        let pos ← eatSym "(" toks pos
        let (args, pos) ← parseArgs f toks pos
        let pos ← eatSym ")" toks pos
        .ok (.newExpr className args, pos)
      else if t.tag = .kw ∧ t.value = "print" then
        -- dead in practice: the lexer never categorizes `print` as a keyword
        parseSuffix f toks (pos + 1) (.identifier "print")
      else if t.tag = .ident then
        parseSuffix f toks (pos + 1) (.identifier t.value)
      else
        .error (mkPErr ("Unexpected token " ++ sq ++ tokenStr t ++ sq ++
          ". Expected expression, literal, or identifier") t)
termination_by structural f _ _ => f

def parseArgs : Nat → List Token → Nat → Except PFail (List Expr × Nat)
  | 0, _, _ => .error .pfuel
  | f + 1, toks, pos =>
      let t := peekTok toks pos
      if t.tag = .sym ∧ t.value = ")" then .ok ([], pos)
      else parseArgsLoop f toks pos []
termination_by structural f _ _ => f

def parseArgsLoop : Nat → List Token → Nat → List Expr →
    Except PFail (List Expr × Nat)
  | 0, _, _, _ => .error .pfuel
  | f + 1, toks, pos, acc => do
      let (e, pos) ← parseExpr f toks pos
      let acc := acc ++ [e]
      let t2 := peekTok toks pos
      if t2.tag = .sym ∧ t2.value = "," then parseArgsLoop f toks (pos + 1) acc
      else .ok (acc, pos)
termination_by structural f _ _ _ => f

end

/-- `parseProgram()`, from the cursor at 0. -/
def parseProgram (fuel : Nat) (toks : List Token) : Except PFail Program := do
  let (body, _) ← parseProgramLoop fuel toks 0 []
  .ok ⟨body⟩

/-! ## The type checker (`src/typecheck.ts`) -/

/-- `ClassInfo`. -/
structure TCClassInfo : Type where
  superName : Option String
  fields : List (String × String)
  methods : List (String × (List String × String))
  ctor : Option (List String)

/-- Pass 1 of `check`: collect class headers, reporting duplicates; a
duplicate `Map.set` overwrites the previous header. -/
def tcPass1 : List Stmt → List (String × TCClassInfo) × List String :=
  List.foldl
    (fun acc s =>
      match s with
      | .classDecl n sup _ =>
          (alSet acc.1 n ⟨sup, [], [], none⟩,
           if alHas acc.1 n then acc.2 ++ ["Duplicate class " ++ n] else acc.2)
      | _ => acc)
    ([], [])

/-- Pass 2 of `check`: fill members into the (mutated-in-place) entry of
each `ClassDecl`'s name. -/
def tcPass2 (body : List Stmt) (classes : List (String × TCClassInfo)) :
    List (String × TCClassInfo) :=
  body.foldl
    (fun cls s =>
      match s with
      | .classDecl n _ members =>
          let info := (alGet cls n).getD ⟨none, [], [], none⟩
          let info := members.foldl
            (fun i m =>
              match m with
              | .fieldDecl mn ty => { i with fields := alSet i.fields mn ty }
              | .methodDecl mn ps ret _ =>
                  { i with methods := alSet i.methods mn (ps.map Param.typeName, ret) }
              | .ctorDecl ps _ => { i with ctor := some (ps.map Param.typeName) })
            info
          alSet cls n info
      | _ => cls)
    classes

/-- Pass 3 of `check`: every named superclass must exist. -/
def tcPass3 (classes : List (String × TCClassInfo)) : List String :=
  classes.filterMap
    (fun p =>
      match p.2.superName with
      | some s =>
          if alHas classes s then none
          else some ("Class " ++ p.1 ++ " extends unknown " ++ s)
      | none => none)

/-- The literal list tested by `typeExists` (lines 55–58): the lowercase
and capitalized spellings only. -/
def builtinTypeNames : List String :=
  ["int", "Int", "string", "String", "bool", "Bool", "void", "Void"]

/-- `typeExists`. -/
def typeExists (classes : List (String × TCClassInfo)) (t : String) : Bool :=
  builtinTypeNames.contains t || alHas classes t

/-- The top-level `VarDecl` check of `check` (lines 46–50). -/
def tcVarErrors (classes : List (String × TCClassInfo)) (body : List Stmt) :
    List String :=
  body.filterMap
    (fun s =>
      match s with
      | .varDecl n ty _ =>
          if typeExists classes ty then none
          else some ("Unknown type " ++ ty ++ " in var " ++ n)
      | _ => none)

/-- The class table `check` leaves in `this.classes`. -/
def tcClassesOf (prog : Program) : List (String × TCClassInfo) :=
  tcPass2 prog.body (tcPass1 prog.body).1

/-- `check(program)`: the accumulated error list, in push order (pass-1
duplicates, then pass-3 unknown supertypes, then top-level variable
type errors). -/
def check (prog : Program) : List String :=
  let p1 := tcPass1 prog.body
  let classes := tcPass2 prog.body p1.1
  p1.2 ++ tcPass3 classes ++ tcVarErrors classes prog.body

/-- `this.classes.get(cur)?.superName`. -/
def superNameOf (classes : List (String × TCClassInfo)) (x : String) :
    Option String :=
  (alGet classes x).bind TCClassInfo.superName

/-- The `while (cur)` walk of `isSubtype`, searching for `b`.  The source
loop is unbounded (and diverges on a cyclic `superName` chain that misses
`b`); the embedding gives it fuel.  `classes.length` fuel reaches every
name the source walk reaches (proved below), and on chains where the
source diverges the embedding answers `false`. -/
def superWalk (classes : List (String × TCClassInfo)) (b : String) :
    Option String → Nat → Bool
  | none, _ => false
  | some _, 0 => false
  | some cur, f + 1 =>
      if cur = b then true
      else superWalk classes b (superNameOf classes cur) f

/-- `isSubtype(a, b)` (lines 60–70): the reflexive test runs first, then
the capitalized `"Void"` test, then both names must be declared classes,
then the super chain from `a` is walked. -/
def isSubtype (classes : List (String × TCClassInfo)) (a b : String) : Bool :=
  if a = b then true
  else if a = "Void" ∨ b = "Void" then false
  else if ¬ (alHas classes a ∧ alHas classes b) then false
  else superWalk classes b (superNameOf classes a) classes.length

/-! ## The interpreter (`src/runtime.ts`) -/

/-- Runtime `Value`.  An object value holds the class name (stored on the
object in TypeScript and never mutated) and the heap address of its
mutable field map, so aliasing is preserved. -/
inductive Value : Type
  | int (value : JSNum)
  | str (value : String)
  | bool (value : Bool)
  | objRef (className : String) (addr : Nat)
  | classRef (className : String)
  | null
deriving DecidableEq, Repr

/-- An environment / field map: a TypeScript `Map<string, Value>`. -/
abbrev Env : Type := List (String × Value)

/-- A runtime error: a thrown `Error` with its message, or the embedding's
fuel-exhaustion artifact (the source has no such outcome; it would loop or
recurse forever instead). -/
inductive RErr : Type
  | thrown (msg : String)
  | fuelOut
deriving DecidableEq, Repr

/-- One entry of `Runtime.classes` (an `AST.ClassDecl`). -/
structure ClassDef : Type where
  superName : Option String
  members : List ClassMember

/-- `new Map(program.body.filter(ClassDecl).map(...))`: later duplicates
overwrite earlier ones. -/
def classesOf (prog : Program) : List (String × ClassDef) :=
  prog.body.foldl
    (fun acc s =>
      match s with
      | .classDecl n sup ms => alSet acc n ⟨sup, ms⟩
      | _ => acc)
    []

/-- The mutable parts of `Runtime`: the `globals` map, the object heap,
what `print` has written (one entry per `console.log` line), and the
`hasReturned` flag (declared in the source and never set). -/
structure RState : Type where
  globals : Env
  heap : List Env
  out : List String
  hasReturned : Bool
deriving DecidableEq, Repr

/-- Which `Map` object the `target` parameter aliases: `this.globals`
itself (the default argument, used at top level) or the current frame's
`localEnv`. -/
inductive EnvRef : Type
  | globalsRef
  | localRef
deriving DecidableEq, Repr

/-- Read the map `target` aliases. -/
def targetEnv (st : RState) : EnvRef → Env → Env
  | .globalsRef, _ => st.globals
  | .localRef, loc => loc

/-- `target.set(k, v)`: mutate whichever map `target` aliases. -/
def targetSet (st : RState) (tgt : EnvRef) (loc : Env) (k : String)
    (v : Value) : RState × Env :=
  match tgt with
  | .globalsRef => ({ st with globals := alSet st.globals k v }, loc)
  | .localRef => (st, alSet loc k v)

/-- `obj.fields` for a heap address (addresses are only minted by
allocation and the heap never shrinks, so the default is unreachable). -/
def heapFields (st : RState) (addr : Nat) : Env :=
  (st.heap.get? addr).getD []

/-- `valToString` (lines 300–306); `class` values fall through to
`"null"` just as `null` does. -/
def valToString : Value → String
  | .int p => p.toStr
  | .str s => s
  | .bool b => if b then "true" else "false"
  | .objRef c _ => "<" ++ c ++ " object>"
  | .classRef _ => "null"
  | .null => "null"

/-- `cls.members.find(m => m.kind === "MethodDecl" && m.name === name)`,
keeping the parameters and body the call sites use. -/
def findMethodInMembers (m : String) :
    List ClassMember → Option (List Param × List Stmt)
  | [] => none
  | .methodDecl n ps _ body :: rest =>
      if n = m then some (ps, body) else findMethodInMembers m rest
  | _ :: rest => findMethodInMembers m rest

/-- `findMethod` (lines 289–298): walk the `superName` chain.  The source
`while (cls)` loop is unbounded (it diverges on a cyclic chain without the
method); callers pass `classes.length + 1` fuel, which covers every chain
the source walk finishes. -/
def findMethod (classes : List (String × ClassDef)) :
    Nat → String → String → Option (List Param × List Stmt)
  | 0, _, _ => none
  | f + 1, cn, m =>
      match alGet classes cn with
      | none => none
      | some cls =>
          match findMethodInMembers m cls.members with
          | some r => some r
          | none =>
              match cls.superName with
              | none => none
              | some sup => findMethod classes f sup m

/-- The parameter-binding loop of both method-call branches (lines
191–193 and 216–218): `for (let i = 0; i < method.params.length && i <
args.length; i++) localEnv.set(params[i].name, args[i])`, i.e. a fold of
`Map.set` over the zip of parameters and argument values. -/
def bindParams (ps : List Param) (vs : List Value) (env : Env) : Env :=
  (List.zip ps vs).foldl (fun e pv => alSet e pv.1.name pv.2) env

def isStrVal : Value → Bool
  | .str _ => true
  | _ => false

/-- The binary-operator dispatch of `evalExpr` (lines 239–261).  Every
combination that no branch accepts falls through to the single throw. -/
def evalBinary (op : String) (l r : Value) : Except RErr Value :=
  if op = "+" then
    if isStrVal l || isStrVal r then
      .ok (.str (valToString l ++ valToString r))
    else
      match l, r with
      | .int a, .int b => .ok (.int (a.add b))
      | _, _ => .error (.thrown "Unsupported binary op or operand types")
  else if op = "-" then
    match l, r with
    | .int a, .int b => .ok (.int (a.sub b))
    | _, _ => .error (.thrown "Unsupported binary op or operand types")
  else if op = "*" then
    match l, r with
    | .int a, .int b => .ok (.int (a.mul b))
    | _, _ => .error (.thrown "Unsupported binary op or operand types")
  else if op = "/" then
    match l, r with
    | .int a, .int b => .ok (.int (a.floorDiv b))
    | _, _ => .error (.thrown "Unsupported binary op or operand types")
  else if op = "==" then
    match l, r with
    | .int a, .int b => .ok (.int (.int (if a.seq b then 1 else 0)))
    | _, _ => .error (.thrown "Unsupported binary op or operand types")
  else if op = "!=" then
    match l, r with
    | .int a, .int b => .ok (.int (.int (if a.seq b then 0 else 1)))
    | _, _ => .error (.thrown "Unsupported binary op or operand types")
  else if op = "<" then
    match l, r with
    | .int a, .int b => .ok (.int (.int (if a.lt b then 1 else 0)))
    | _, _ => .error (.thrown "Unsupported binary op or operand types")
  else if op = ">" then
    match l, r with
    | .int a, .int b => .ok (.int (.int (if b.lt a then 1 else 0)))
    | _, _ => .error (.thrown "Unsupported binary op or operand types")
  else if op = "<=" then
    match l, r with
    | .int a, .int b => .ok (.int (.int (if a.le b then 1 else 0)))
    | _, _ => .error (.thrown "Unsupported binary op or operand types")
  else if op = ">=" then
    match l, r with
    | .int a, .int b => .ok (.int (.int (if b.le a then 1 else 0)))
    | _, _ => .error (.thrown "Unsupported binary op or operand types")
  else .error (.thrown "Unsupported binary op or operand types")

/-- Allocation of `NewExpr`'s field map: every declared field set to
null, in member order, with `Map.set` semantics. -/
def initFields (members : List ClassMember) : Env :=
  members.foldl
    (fun fs m =>
      match m with
      | .fieldDecl n _ => alSet fs n .null
      | _ => fs)
    []

/-- The truthiness test of `IfStmt` (line 120):
`(cond.kind === "int" && cond.value !== 0) || (cond.kind === "bool" && cond.value)`. -/
def isTruthy : Value → Bool
  | .int p => !(p.seq (.int 0))
  | .bool b => b
  | _ => false

mutual

/-- `evalExpr(e, target)`.  Evaluation returns the value together with the
(possibly mutated) runtime state and local frame map. -/
def evalExpr (classes : List (String × ClassDef)) :
    Nat → Expr → RState → EnvRef → Env → Except RErr (Value × RState × Env)
  | 0, _, _, _, _ => .error .fuelOut
  | f + 1, e, st, tgt, loc =>
      match e with
      | .intLiteral v => .ok (.int (.int v), st, loc)
      | .stringLiteral s => .ok (.str s, st, loc)
      | .boolLiteral b => .ok (.bool b, st, loc)
      | .identifier n =>
          -- lines 140–143: only `this.globals` is consulted
          match alGet st.globals n with
          | some v => .ok (v, st, loc)
          | none => .error (.thrown ("Unknown identifier " ++ n))
      | .newExpr c _args =>
          -- lines 144–157: the constructor, if any, is found but neither
          -- its parameters are bound nor its body executed (source TODO);
          -- the argument expressions are never evaluated
          match alGet classes c with
          | none => .error (.thrown ("Unknown class " ++ c))
          | some cls =>
              .ok (.objRef c st.heap.length,
                   { st with heap := st.heap ++ [initFields cls.members] }, loc)
      | .fieldAccessExpr objE field => do
          let (o, st, loc) ← evalExpr classes f objE st tgt loc
          match o with
          | .objRef _ addr =>
              .ok ((alGet (heapFields st addr) field).getD .null, st, loc)
          | .classRef cn => .ok (.classRef cn, st, loc)
          | _ => .error (.thrown "Invalid field access on non-object")
      | .callExpr callee args =>
          match callee with
          | .identifier "print" => do
              let (vs, st, loc) ← evalArgs classes f args st tgt loc
              .ok (.null,
                   { st with out :=
                       st.out ++ [String.intercalate " " (vs.map valToString)] },
                   loc)
          | .fieldAccessExpr objE mname => do
              let (o, st, loc) ← evalExpr classes f objE st tgt loc
              match o with
              | .classRef cn =>
                  match findMethod classes (classes.length + 1) cn mname with
                  | none =>
                      .error (.thrown ("Method " ++ mname ++
                        " not found on class " ++ cn))
                  | some mth => do
                      let (vs, st, loc) ← evalArgs classes f args st tgt loc
                      let env0 := targetEnv st tgt loc
                      let env1 := bindParams mth.1 vs env0
                      let (rv, st) ← execMethodBody classes f mth.2 st env1
                      .ok (rv, st, loc)
              | .objRef cn _ =>
                  match findMethod classes (classes.length + 1) cn mname with
                  | none =>
                      .error (.thrown ("Method " ++ mname ++ " not found on " ++
                        cn))
                  | some mth => do
                      let (vs, st, loc) ← evalArgs classes f args st tgt loc
                      let env0 := alSet (targetEnv st tgt loc) "this" o
                      let env1 := bindParams mth.1 vs env0
                      let (rv, st) ← execMethodBody classes f mth.2 st env1
                      .ok (rv, st, loc)
              | _ => .error (.thrown "Call on non-object/non-class")
          | _ => .error (.thrown "Unsupported call form")
      | .binaryExpr op le re => do
          let (l, st, loc) ← evalExpr classes f le st tgt loc
          let (r, st, loc) ← evalExpr classes f re st tgt loc
          let v ← evalBinary op l r
          .ok (v, st, loc)
      | .unaryExpr op oe => do
          let (v, st, loc) ← evalExpr classes f oe st tgt loc
          if op = "-" then
            match v with
            | .int p => .ok (.int p.neg, st, loc)
            | _ => .error (.thrown "Unsupported unary op or operand type")
          else if op = "+" then
            match v with
            | .int p => .ok (.int p, st, loc)
            | _ => .error (.thrown "Unsupported unary op or operand type")
          else .error (.thrown "Unsupported unary op or operand type")
      | .assignmentExpr target value => do
          let (v, st, loc) ← evalExpr classes f value st tgt loc
          match target with
          | .identifier n =>
              let (st, loc) := targetSet st tgt loc n v
              .ok (v, st, loc)
          | .fieldAccessExpr objE field => do
              let (o, st, loc) ← evalExpr classes f objE st tgt loc
              match o with
              | .objRef _ addr =>
                  .ok (v,
                       { st with heap :=
                           st.heap.set addr (alSet (heapFields st addr) field v) },
                       loc)
              | _ => .error (.thrown "Cannot assign to field of non-object")
          | _ => .error (.thrown "Invalid assignment target")
      | .thisExpr => .error (.thrown "Eval not implemented for ThisExpr")
      | .superExpr _ => .error (.thrown "Eval not implemented for SuperExpr")

/-- `e.args.map(a => this.evalExpr(a, target))`: left-to-right. -/
def evalArgs (classes : List (String × ClassDef)) :
    Nat → List Expr → RState → EnvRef → Env →
    Except RErr (List Value × RState × Env)
  | 0, _, _, _, _ => .error .fuelOut
  | _ + 1, [], st, _, loc => .ok ([], st, loc)
  | f + 1, e :: rest, st, tgt, loc => do
      let (v, st, loc) ← evalExpr classes f e st tgt loc
      let (vs, st, loc) ← evalArgs classes f rest st tgt loc
      .ok (v :: vs, st, loc)

/-- `execStmt(s, target)`: the returned `Bool` is the source's return
signal. -/
def execStmt (classes : List (String × ClassDef)) :
    Nat → Stmt → RState → EnvRef → Env → Except RErr (Bool × RState × Env)
  | 0, _, _, _, _ => .error .fuelOut
  | f + 1, s, st, tgt, loc =>
      match s with
      | .importStmt _ _ => .ok (false, st, loc)
      | .varDecl n _ init => do
          let (v, st, loc) ←
            match init with
            | some e => evalExpr classes f e st tgt loc
            | none => .ok (Value.null, st, loc)
          let (st, loc) := targetSet st tgt loc n v
          .ok (false, st, loc)
      | .exprStmt e => do
          let (_, st, loc) ← evalExpr classes f e st tgt loc
          .ok (false, st, loc)
      | .returnStmt _ =>
          -- line 116–117: signal only; the return expression is NOT evaluated
          .ok (true, st, loc)
      | .ifStmt cond thenBody elseBody => do
          let (c, st, loc) ← evalExpr classes f cond st tgt loc
          if isTruthy c then do
            let (r, st, loc) ← execStmts classes f thenBody st tgt loc
            .ok (r, st, loc)
          else
            match elseBody with
            | some els => do
                let (r, st, loc) ← execStmts classes f els st tgt loc
                .ok (r, st, loc)
            | none => .ok (false, st, loc)
      | _ => .ok (false, st, loc)  -- ClassDecl, FuncDecl: final `return false`

/-- The `for (const stmt of body) { if (execStmt(stmt)) return true }`
pattern inside `IfStmt` branches. -/
def execStmts (classes : List (String × ClassDef)) :
    Nat → List Stmt → RState → EnvRef → Env →
    Except RErr (Bool × RState × Env)
  | 0, _, _, _, _ => .error .fuelOut
  | _ + 1, [], st, _, loc => .ok (false, st, loc)
  | f + 1, s :: rest, st, tgt, loc => do
      let (r, st, loc) ← execStmt classes f s st tgt loc
      if r then .ok (true, st, loc)
      else execStmts classes f rest st tgt loc

/-- The statement loop both method-call branches run over the method body
(lines 196–204 and 221–229): a ReturnStmt at the top level of the body
evaluates its expression and stops; any other statement is executed with
its return signal DISCARDED (the `execStmt` result is not consulted), so
a return inside a nested block neither stops the loop nor yields a value. -/
def execMethodBody (classes : List (String × ClassDef)) :
    Nat → List Stmt → RState → Env → Except RErr (Value × RState)
  | 0, _, _, _ => .error .fuelOut
  | _ + 1, [], st, _ => .ok (.null, st)
  | f + 1, s :: rest, st, env =>
      match s with
      | .returnStmt oe =>
          match oe with
          | some e => do
              let (v, st, _) ← evalExpr classes f e st .localRef env
              .ok (v, st)
          | none => .ok (.null, st)
      | _ => do
          let (_sig, st, env) ← execStmt classes f s st .localRef env
          execMethodBody classes f rest st env

end

/-- The initial `Runtime` state: every declared class registered in
`globals` as a class reference, in class-table order. -/
def initState (prog : Program) : RState :=
  { globals := (classesOf prog).map (fun p => (p.1, Value.classRef p.1)),
    heap := [], out := [], hasReturned := false }

/-- The statement loop of `run` (the `hasReturned` break is dead: nothing
ever sets the flag). -/
def runLoop (classes : List (String × ClassDef)) :
    Nat → List Stmt → RState → Except RErr RState
  | 0, _, _ => .error .fuelOut
  | _ + 1, [], st => .ok st
  | f + 1, s :: rest, st => do
      let (_sig, st, _) ← execStmt classes f s st .globalsRef []
      if st.hasReturned then .ok st else runLoop classes f rest st

/-- `new Runtime(program)` followed by `run(program)`. -/
def runProg (fuel : Nat) (prog : Program) : Except RErr RState :=
  runLoop (classesOf prog) fuel prog.body (initState prog)

/-- The interpret pipeline on one source string: `lex`, `parseProgram`,
`run`, observing what `print` wrote.  (The driver in `src/main.ts` would
also prepend standard-library files read from disk — absent here — and run
the type checker, which does not influence the interpreter's output.) -/
def interpretOut (fuel : Nat) (src : String) : Option (List String) :=
  match parseProgram fuel (lex src) with
  | .ok prog =>
      match runProg fuel prog with
      | .ok st => some st.out
      | .error _ => none
  | .error _ => none

/-! ## Definitions used only to state claims -/

/-- Escape processing of string-literal content: a backslash makes the
next character literal (spec §4.1); used to describe the lexer's output
on an unterminated literal. -/
def escProcess : List Char → List Char
  | [] => []
  | c :: cs =>
      if c = '\\' then
        match cs with
        | [] => []
        | d :: ds => d :: escProcess ds
      else c :: escProcess cs

/-- `b` is reachable from `a` by following one or more `superName` links
through the class table (spec §4.3). -/
inductive SuperReaches (classes : List (String × TCClassInfo)) :
    String → String → Prop
  | direct {a b : String} :
      superNameOf classes a = some b → SuperReaches classes a b
  | step {a c b : String} :
      superNameOf classes a = some c → SuperReaches classes c b →
      SuperReaches classes a b

/-- Follow `superName` links `k` times from `x` (for relating
`SuperReaches` to the bounded `superWalk`). -/
def chainIter (classes : List (String × TCClassInfo)) :
    Nat → String → Option String
  | 0, x => some x
  | k + 1, x =>
      match superNameOf classes x with
      | none => none
      | some y => chainIter classes k y

/-- A method whose single parameter is returned from its body; the call
`a.m(42)` exercises identifier lookup of a parameter inside a frame. -/
def progC1 : Program :=
  ⟨[.classDecl "A" none
      [.methodDecl "m" [⟨"x", "int"⟩] "int"
        [.returnStmt (some (.identifier "x"))]],
    .varDecl "a" "A" (some (.newExpr "A" [])),
    .exprStmt (.callExpr (.identifier "print")
      [.callExpr (.fieldAccessExpr (.identifier "a") "m") [.intLiteral 42]])]⟩

/-- A method body `if (1) { return 42 } return 7`: the first return sits
inside a nested `IfStmt` block. -/
def progC2 : Program :=
  ⟨[.classDecl "A" none
      [.methodDecl "m" [] "int"
        [.ifStmt (.intLiteral 1) [.returnStmt (some (.intLiteral 42))] none,
         .returnStmt (some (.intLiteral 7))]],
    .varDecl "a" "A" (some (.newExpr "A" [])),
    .exprStmt (.callExpr (.identifier "print")
      [.callExpr (.fieldAccessExpr (.identifier "a") "m") []])]⟩

/-- `class C { f: int  constructor(p: int) { this.f = p } }` followed by
`let o: C = new C(5)` and `print(o.f)`. -/
def progC3 : Program :=
  ⟨[.classDecl "C" none
      [.fieldDecl "f" "int",
       .ctorDecl [⟨"p", "int"⟩]
         [.exprStmt (.assignmentExpr (.fieldAccessExpr .thisExpr "f")
            (.identifier "p"))]],
    .varDecl "o" "C" (some (.newExpr "C" [.intLiteral 5])),
    .exprStmt (.callExpr (.identifier "print")
      [.fieldAccessExpr (.identifier "o") "f"])]⟩

/-- A one-parameter method called with three arguments, each of which is
itself a `print` call, so the order and number of argument evaluations is
visible in the output. -/
def progC9a : Program :=
  ⟨[.classDecl "A" none
      [.methodDecl "m" [⟨"x", "int"⟩] "int"
        [.returnStmt (some (.intLiteral 5))]],
    .varDecl "a" "A" (some (.newExpr "A" [])),
    .exprStmt (.callExpr (.identifier "print")
      [.callExpr (.fieldAccessExpr (.identifier "a") "m")
        [.callExpr (.identifier "print") [.intLiteral 1],
         .callExpr (.identifier "print") [.intLiteral 2],
         .callExpr (.identifier "print") [.intLiteral 3]]])]⟩

/-- A two-parameter method called with no arguments. -/
def progC9b : Program :=
  ⟨[.classDecl "B" none
      [.methodDecl "m" [⟨"x", "int"⟩, ⟨"y", "int"⟩] "int"
        [.returnStmt (some (.intLiteral 8))]],
    .varDecl "b" "B" (some (.newExpr "B" [])),
    .exprStmt (.callExpr (.identifier "print")
      [.callExpr (.fieldAccessExpr (.identifier "b") "m") []])]⟩

/-- A two-entry class table with `A extends B`. -/
def twoClassTable : List (String × TCClassInfo) :=
  [("B", ⟨none, [], [], none⟩), ("A", ⟨some "B", [], [], none⟩)]

/-! ## Supporting lemmas -/

theorem alGet_alSet_ne {α : Type} (m : List (String × α)) (k n : String)
    (v : α) (h : k ≠ n) : alGet (alSet m k v) n = alGet m n := by
  induction m with
  | nil => simp [alGet, alSet, h]
  | cons p rest ih =>
      obtain ⟨k', v'⟩ := p
      by_cases hk : k' = k
      · subst hk
        simp [alSet, alGet, h]
      · simp only [alSet, if_neg hk]
        by_cases hn : k' = n
        · simp [alGet, hn]
        · simp [alGet, hn, ih]

theorem alGet_mem_keys {α : Type} (m : List (String × α)) (k : String)
    (v : α) (h : alGet m k = some v) : k ∈ m.map Prod.fst := by
  induction m with
  | nil => simp [alGet] at h
  | cons p rest ih =>
      obtain ⟨k', v'⟩ := p
      by_cases hk : k' = k
      · simp [hk]
      · simp only [alGet, if_neg hk] at h
        simp [ih h]

/-! ## Claim theorems -/

/-- C1.  The claim says identifier lookup consults the current (innermost)
environment first and then `globals`, so a method parameter is found.  The
interpreter's `Identifier` case (runtime lines 140–143) reads only
`this.globals`: calling `a.m(42)` on a method `m(x: int) { return x }`
throws `Unknown identifier x` even though `x` is bound in the frame's
local environment. -/
theorem C1_method_parameter_unreachable :
    runProg 100 progC1 = .error (.thrown "Unknown identifier x") := rfl

/-- C2.  The claim says a `ReturnStatement` inside a nested `IfStatement`
block ends the method with the returned value.  In the interpreter, the
method-call loop (runtime lines 196–204 / 221–229) discards the return
signal `execStmt` propagates out of an `IfStmt`, and `execStmt` never
evaluates a `ReturnStmt`'s expression: the body
`if (1) { return 42 } return 7` yields 7, not 42, and the statement after
the nested return still runs. -/
theorem C2_nested_return_discarded :
    (runProg 100 progC2).map RState.out = .ok ["7"] ∧
    (Except.ok ["7"] : Except RErr (List String)) ≠ .ok ["42"] :=
  ⟨rfl, by simp⟩

/-- C3.  The claim says `new C(a1..an)` binds the constructor's parameters
and executes its body.  The interpreter's `NewExpr` case (runtime lines
144–157, with its `TODO` comment) allocates the null-initialized object
and returns it without evaluating the arguments or running the
constructor: after `let o: C = new C(5)` with `constructor(p) { this.f = p }`,
field `f` is still `null` and `print(o.f)` writes `null`. -/
theorem C3_constructor_not_run :
    (runProg 100 progC3).map RState.out = .ok ["null"] ∧
    (runProg 100 progC3).map RState.heap = .ok [[("f", Value.null)]] :=
  ⟨rfl, rfl⟩

/-- C8.  The claim says every token records the line and column of its
first character, including after string literals.  The string branch of
`lex` advances `column` by `i - (j - str.length)` = decoded length + 1,
one short of the literal's source width (and more with escapes), and never
advances `line`: in `"a" b` the token for `b` records column 4 although
`b` is the fifth character of the line (0-based index 4). -/
theorem C8_column_after_string_off_by_one :
    lex "\"a\" b" =
      [⟨.str, "a", 1, 1⟩, ⟨.ident, "b", 1, 4⟩, ⟨.eof, "", 1, 5⟩] ∧
    "\"a\" b".toList.drop 4 = ['b'] := ⟨rfl, rfl⟩

/-- C5 counterexample.  The claim says an unterminated string literal is a
lexical error and no token stream is produced.  `lex` has no error path at
all: on S7's input `let s: String = "hi` it emits a `str` token holding
`hi` and a complete stream ending in `eof`. -/
theorem C5_cex_unterminated_string_lexes :
    lex "let s: String = \"hi" =
      [⟨.kw, "let", 1, 1⟩, ⟨.ident, "s", 1, 5⟩, ⟨.sym, ":", 1, 6⟩,
       ⟨.ident, "String", 1, 8⟩, ⟨.sym, "=", 1, 15⟩, ⟨.str, "hi", 1, 17⟩,
       ⟨.eof, "", 1, 20⟩] := rfl

/-- C4 counterexample.  The claim (quoting S1) says interpreting
`print(1 + 2 * 3)` writes `7\n`.  With the single flat left-associative
operator tier the program prints `9`. -/
theorem C4_cex_S1_prints_nine :
    interpretOut 100 "print(1 + 2 * 3)" = some ["9"] ∧
    (some ["9"] : Option (List String)) ≠ some ["7"] := ⟨rfl, by decide⟩

/-- C6 counterexample.  The claim says `typeExists` recognizes the
built-in names case-insensitively, e.g. `INT`.  The source tests
membership in the literal list `["int","Int","string","String","bool",
"Bool","void","Void"]`, so `INT` (with no class of that name) is not
recognized. -/
theorem C6_cex_INT_not_recognized : typeExists [] "INT" = false := rfl

/-- C7 counterexample.  The claim says `isSubtype` returns false whenever
either argument is the void type, in particular on void with itself.  The
reflexive test at line 61 runs before the `"Void"` test at line 62, so
`isSubtype("Void", "Void")` is true. -/
theorem C7_cex_void_reflexive : isSubtype [] "Void" "Void" = true := rfl

theorem zip_take_min {α β : Type} (ps : List α) (vs : List β) :
    List.zip ps vs = List.zip (ps.take vs.length) (vs.take ps.length) := by
  induction ps generalizing vs with
  | nil => simp
  | cons p ps ih =>
      cases vs with
      | nil => simp
      | cons v vs => simp [List.zip_cons_cons, ih vs]

theorem bindParams_notMem_preserved (ps : List Param) :
    ∀ (vs : List Value) (env : Env) (n : String),
      n ∉ (ps.take vs.length).map Param.name →
      alGet (bindParams ps vs env) n = alGet env n := by
  induction ps with
  | nil => intro vs env n _; simp [bindParams, List.zip]
  | cons p ps ih =>
      intro vs env n h
      cases vs with
      | nil => simp [bindParams, List.zip]
      | cons v vs =>
          simp only [List.length_cons, List.take_succ_cons, List.map_cons,
            List.mem_cons, not_or] at h
          have step : bindParams (p :: ps) (v :: vs) env =
              bindParams ps vs (alSet env p.name v) := rfl
          rw [step, ih vs (alSet env p.name v) n h.2,
            alGet_alSet_ne env p.name n v (fun hp => h.1 hp.symm)]

/-- C9.  Method calls check no arity: the binding loop touches exactly the
first `min(#params, #args)` pairs (surplus arguments are discarded and the
remaining parameters are left unbound), while every argument has already
been evaluated left-to-right.  Concretely, a one-parameter method accepts
three arguments — evaluated in order, as the printed `1 2 3` shows — and a
two-parameter method accepts zero arguments, both without error. -/
theorem C9_no_arity_check_min_binding :
    (∀ (ps : List Param) (vs : List Value) (env : Env),
      bindParams ps vs env =
        bindParams (ps.take vs.length) (vs.take ps.length) env) ∧
    (∀ (ps : List Param) (vs : List Value) (env : Env) (n : String),
      n ∉ (ps.take vs.length).map Param.name →
      alGet (bindParams ps vs env) n = alGet env n) ∧
    (runProg 100 progC9a).map RState.out = .ok ["1", "2", "3", "5"] ∧
    (runProg 100 progC9b).map RState.out = .ok ["8"] := by
  refine ⟨?_, bindParams_notMem_preserved, rfl, rfl⟩
  intro ps vs env
  unfold bindParams
  rw [← zip_take_min]

/-- Witness for C9: binding one argument to a two-parameter list leaves
the second parameter's name unbound. -/
theorem C9_no_arity_check_min_binding_witness :
    alGet (bindParams [⟨"x", "int"⟩, ⟨"y", "int"⟩] [Value.null] []) "y" =
      alGet ([] : Env) "y" :=
  C9_no_arity_check_min_binding.2.1 [⟨"x", "int"⟩, ⟨"y", "int"⟩]
    [Value.null] [] "y" (by decide)

theorem strScan_no_quote (q : Char) (hq : q = '"' ∨ q = '\'') :
    ∀ (cs : List Char), q ∉ cs → strScan q cs = (escProcess cs, []) := by
  have hbq : ¬ ('\\' = q) := by rcases hq with h | h <;> subst h <;> decide
  have H : ∀ (n : Nat) (cs : List Char), cs.length ≤ n → q ∉ cs →
      strScan q cs = (escProcess cs, []) := by
    intro n
    induction n with
    | zero =>
        intro cs hlen _
        rw [List.length_eq_zero.mp (Nat.le_zero.mp hlen)]
        rfl
    | succ n ih =>
        intro cs hlen h
        match cs with
        | [] => rfl
        | c :: cs' =>
            simp only [List.mem_cons, not_or] at h
            have hcq : ¬ (c = q) := fun hc => h.1 hc.symm
            by_cases hb : c = '\\'
            · subst hb
              match cs' with
              | [] => simp [strScan, escProcess, hcq]
              | d :: ds =>
                  have hds : q ∉ ds := fun hd => h.2 (List.mem_cons_of_mem d hd)
                  have hlds : ds.length ≤ n := by
                    simp only [List.length_cons] at hlen
                    omega
                  simp [strScan, escProcess, hcq, ih ds hlds hds]
            · have hlcs : cs'.length ≤ n := by
                simp only [List.length_cons] at hlen
                omega
              rw [strScan.eq_def]
              simp [hcq, hb, ih cs' hlcs h.2]
              conv_rhs => rw [escProcess.eq_def]
              simp [hb]
  exact fun cs => H cs.length cs le_rfl

/-- C5 amended.  On an unterminated string literal the lexer does not
fail: the whole remainder of the input (escape-processed) becomes the
`str` token's value, positioned at the opening quote, and the stream is
closed with `eof` as usual. -/
theorem C5_amended_unterminated_string_accepted (q : Char) (cs : List Char)
    (line col f : Nat) (hq : q = '"' ∨ q = '\'') (h : q ∉ cs) :
    lexLoop (f + 2) (q :: cs) line col =
      [⟨.str, String.mk (escProcess cs), line, col⟩,
       ⟨.eof, "", line, col + (escProcess cs).length + 1⟩] := by
  have hsc := strScan_no_quote q hq cs h
  rcases hq with hq1 | hq1 <;> subst hq1 <;>
    simp [lexLoop, hsc, isWsChar, isDigitChar, isIdentStartChar]

/-- Witness for C5: the unterminated literal `"hi` at column 17. -/
theorem C5_amended_unterminated_string_accepted_witness :
    lexLoop 2 ['"', 'h', 'i'] 1 17 =
      [⟨.str, "hi", 1, 17⟩, ⟨.eof, "", 1, 20⟩] :=
  C5_amended_unterminated_string_accepted '"' ['h', 'i'] 1 17 0
    (Or.inl rfl) (by decide)

/-- C4 amended.  The parser has one flat tier of the ten left-associative
binary operators — `a op1 b op2 c` always parses to
`BinaryExpr(op2, BinaryExpr(op1, a, b), c)`, so `1 + 2 * 3` is
`(1 + 2) * 3` — and consequently interpreting `print(1 + 2 * 3)` writes
`9\n` (S1's stated `7\n` does not match the flat-precedence rule). -/
theorem C4_amended_flat_precedence_prints_nine :
    (∀ (op1 op2 s1 s2 s3 : String)
        (l1 c1 l2 c2 l3 c3 l4 c4 l5 c5 l6 c6 f : Nat),
      op1 ∈ binOps → op2 ∈ binOps →
      parseBinary (f + 5)
          [⟨.num, s1, l1, c1⟩, ⟨.sym, op1, l2, c2⟩, ⟨.num, s2, l3, c3⟩,
           ⟨.sym, op2, l4, c4⟩, ⟨.num, s3, l5, c5⟩, ⟨.eof, "", l6, c6⟩] 0 =
        .ok (.binaryExpr op2
              (.binaryExpr op1 (.intLiteral (numVal s1))
                (.intLiteral (numVal s2)))
              (.intLiteral (numVal s3)), 5)) ∧
    interpretOut 100 "print(1 + 2 * 3)" = some ["9"] := by
  refine ⟨?_, rfl⟩
  intro op1 op2 s1 s2 s3 l1 c1 l2 c2 l3 c3 l4 c4 l5 c5 l6 c6 f h1 h2
  have hc1 : binOps.contains op1 = true := List.elem_eq_true_of_mem h1
  have hc2 : binOps.contains op2 = true := List.elem_eq_true_of_mem h2
  have okBind : ∀ {α β : Type} (a : α) (g : α → Except PFail β),
      (Except.ok a : Except PFail α) >>= g = g a := fun a g => rfl
  simp [parseBinary, parseUnary, parsePrimary, parseBinaryLoop, peekTok,
    hc1, hc2, okBind, h1, h2]

/-- Witness for C4: `1 + 2 * 3` produces the left-nested AST. -/
theorem C4_amended_flat_precedence_prints_nine_witness :
    parseBinary 5
        [⟨.num, "1", 1, 1⟩, ⟨.sym, "+", 1, 3⟩, ⟨.num, "2", 1, 5⟩,
         ⟨.sym, "*", 1, 7⟩, ⟨.num, "3", 1, 9⟩, ⟨.eof, "", 1, 10⟩] 0 =
      .ok (.binaryExpr "*"
            (.binaryExpr "+" (.intLiteral 1) (.intLiteral 2))
            (.intLiteral 3), 5) :=
  C4_amended_flat_precedence_prints_nine.1 "+" "*" "1" "2" "3"
    1 1 1 3 1 5 1 7 1 9 1 10 0 (by decide) (by decide)

/-- C10.  Division is unguarded against a zero divisor: for every integer
`x`, evaluating `x / 0` in any state is not an error but an int-tagged
value whose payload is `Math.floor` of the IEEE quotient — `Infinity`,
`-Infinity` or `NaN` depending on the sign of `x` — never an integer. -/
theorem C10_division_by_zero_unguarded (x : Int)
    (classes : List (String × ClassDef)) (f : Nat) (st : RState)
    (tgt : EnvRef) (loc : Env) :
    evalExpr classes (f + 2)
        (.binaryExpr "/" (.intLiteral x) (.intLiteral 0)) st tgt loc =
      .ok (.int (JSNum.floorDiv (.int x) (.int 0)), st, loc) ∧
    JSNum.floorDiv (.int x) (.int 0) =
      (if 0 < x then .posInf else if x < 0 then .negInf else .nan) ∧
    ∀ (n : Int), JSNum.floorDiv (.int x) (.int 0) ≠ .int n := by
  refine ⟨rfl, by simp [JSNum.floorDiv], ?_⟩
  intro n
  by_cases h1 : 0 < x
  · simp [JSNum.floorDiv, h1]
  · by_cases h2 : x < 0
    · simp [JSNum.floorDiv, h1, h2]
    · simp [JSNum.floorDiv, h1, h2]

/-- C6 amended.  `typeExists` accepts exactly the eight spellings
`int, Int, string, String, bool, Bool, void, Void` (no other letter
casings) or a declared class name, and a top-level `VarDecl` whose
`typeName` fails this test contributes `Unknown type <T> in var <name>`
to `check`'s error list. -/
theorem C6_amended_typeExists_exact_spellings :
    (∀ (classes : List (String × TCClassInfo)) (t : String),
      typeExists classes t = true ↔
        (t ∈ builtinTypeNames ∨ alHas classes t = true)) ∧
    (∀ (prog : Program) (n ty : String) (init : Option Expr),
      Stmt.varDecl n ty init ∈ prog.body →
      typeExists (tcClassesOf prog) ty = false →
      ("Unknown type " ++ ty ++ " in var " ++ n) ∈ check prog) := by
  constructor
  · intro classes t
    simp [typeExists, Bool.or_eq_true]
  · intro prog n ty init hmem hne
    have hv : ("Unknown type " ++ ty ++ " in var " ++ n) ∈
        tcVarErrors (tcClassesOf prog) prog.body := by
      refine List.mem_filterMap.mpr ⟨.varDecl n ty init, hmem, ?_⟩
      simp [hne]
    simp only [check]
    exact List.mem_append.mpr (Or.inr hv)

/-- Witness for C6: an unknown type name in a top-level declaration. -/
theorem C6_amended_typeExists_exact_spellings_witness :
    ("Unknown type Foo in var x") ∈ check ⟨[.varDecl "x" "Foo" none]⟩ :=
  C6_amended_typeExists_exact_spellings.2 ⟨[.varDecl "x" "Foo" none]⟩
    "x" "Foo" none (List.mem_singleton.mpr rfl) rfl


theorem superWalk_true_iff (cs : List (String × TCClassInfo)) (b : String) :
    ∀ (f : Nat) (x : String),
      superWalk cs b (some x) f = true ↔
        ∃ k, k < f ∧ chainIter cs k x = some b := by
  intro f
  induction f with
  | zero =>
      intro x
      simp [superWalk]
  | succ f ih =>
      intro x
      by_cases hx : x = b
      · subst hx
        simp only [superWalk, if_pos rfl]
        exact iff_of_true rfl ⟨0, Nat.succ_pos f, rfl⟩
      · rw [show superWalk cs b (some x) (f + 1) =
            (if x = b then true else superWalk cs b (superNameOf cs x) f)
            from rfl, if_neg hx]
        cases hsn : superNameOf cs x with
        | none =>
            constructor
            · intro h
              exact absurd h (by simp [superWalk])
            · rintro ⟨k, hk, hc⟩
              cases k with
              | zero => exact absurd (Option.some.inj hc) hx
              | succ k => simp [chainIter, hsn] at hc
        | some y =>
            rw [ih y]
            constructor
            · rintro ⟨k, hk, hc⟩
              exact ⟨k + 1, Nat.succ_lt_succ hk, by simp [chainIter, hsn, hc]⟩
            · rintro ⟨k, hk, hc⟩
              cases k with
              | zero => exact absurd (Option.some.inj hc) hx
              | succ k =>
                  refine ⟨k, Nat.lt_of_succ_lt_succ hk, ?_⟩
                  simpa [chainIter, hsn] using hc

theorem superReaches_chain (cs : List (String × TCClassInfo)) {a b : String}
    (h : SuperReaches cs a b) :
    ∃ m, 0 < m ∧ chainIter cs m a = some b := by
  induction h with
  | direct hd => exact ⟨1, Nat.one_pos, by simp [chainIter, hd]⟩
  | step hd _ ih =>
      obtain ⟨m, hm, hc⟩ := ih
      exact ⟨m + 1, Nat.succ_pos m, by simp [chainIter, hd, hc]⟩

theorem chain_superReaches (cs : List (String × TCClassInfo)) :
    ∀ (m : Nat) (a b : String), 0 < m → chainIter cs m a = some b →
      SuperReaches cs a b := by
  intro m
  induction m with
  | zero => intro a b h _; exact (Nat.lt_irrefl 0 h).elim
  | succ m ih =>
      intro a b _ hc
      simp only [chainIter] at hc
      cases hsn : superNameOf cs a with
      | none => rw [hsn] at hc; exact absurd hc (by simp)
      | some y =>
          rw [hsn] at hc
          rcases Nat.eq_zero_or_pos m with h0 | hpos
          · subst h0
            simp only [chainIter] at hc
            cases Option.some.inj hc
            exact SuperReaches.direct hsn
          · exact SuperReaches.step hsn (ih y b hpos hc)

theorem chainIter_add (cs : List (String × TCClassInfo)) (i : Nat) :
    ∀ (j : Nat) (a : String),
      chainIter cs (i + j) a =
        (chainIter cs i a).bind (fun y => chainIter cs j y) := by
  induction i with
  | zero => intro j a; simp [chainIter]
  | succ i ih =>
      intro j a
      rw [show i + 1 + j = (i + j) + 1 from by omega]
      simp only [chainIter]
      cases hsn : superNameOf cs a with
      | none => simp
      | some y => simp [ih j y]

theorem chain_shrink_le_length (cs : List (String × TCClassInfo))
    (a b : String) (h : ∃ m, 0 < m ∧ chainIter cs m a = some b) :
    ∃ m, 0 < m ∧ m ≤ cs.length ∧ chainIter cs m a = some b := by
  classical
  have hm0 := Nat.find_spec h
  set m0 := Nat.find h with hm0def
  refine ⟨m0, hm0.1, ?_, hm0.2⟩
  by_contra hgt
  push_neg at hgt
  have hstep : ∀ i, i < m0 → ∃ x, chainIter cs i a = some x ∧
      ∃ y, superNameOf cs x = some y := by
    intro i hi
    have hadd : chainIter cs (i + (m0 - i)) a = some b := by
      rw [show i + (m0 - i) = m0 from by omega]
      exact hm0.2
    rw [chainIter_add] at hadd
    cases hci : chainIter cs i a with
    | none => rw [hci] at hadd; simp at hadd
    | some x =>
        rw [hci] at hadd
        simp only [Option.bind] at hadd
        obtain ⟨k, hk⟩ : ∃ k, m0 - i = k + 1 := ⟨m0 - i - 1, by omega⟩
        rw [hk] at hadd
        simp only [chainIter] at hadd
        cases hsn : superNameOf cs x with
        | none => rw [hsn] at hadd; simp at hadd
        | some y => exact ⟨x, rfl, y, hsn⟩
  have hmaps : ∀ i ∈ Finset.range m0,
      (chainIter cs i a).getD "" ∈ (cs.map Prod.fst).toFinset := by
    intro i hi
    obtain ⟨x, hx, y, hy⟩ := hstep i (Finset.mem_range.mp hi)
    rw [hx]
    simp only [Option.getD_some]
    unfold superNameOf at hy
    cases hg : alGet cs x with
    | none => rw [hg] at hy; simp at hy
    | some info => exact List.mem_toFinset.mpr (alGet_mem_keys cs x info hg)
  have hcard : ((cs.map Prod.fst).toFinset).card < (Finset.range m0).card := by
    calc ((cs.map Prod.fst).toFinset).card ≤ (cs.map Prod.fst).length :=
          List.toFinset_card_le _
      _ = cs.length := List.length_map _ _
      _ < m0 := hgt
      _ = (Finset.range m0).card := (Finset.card_range m0).symm
  obtain ⟨i, hi, j, hj, hij, hgij⟩ :=
    Finset.exists_ne_map_eq_of_card_lt_of_maps_to hcard hmaps
  have key : ∀ i j, i < j → j < m0 →
      (chainIter cs i a).getD "" = (chainIter cs j a).getD "" → False := by
    intro i j hij2 hjm heq
    obtain ⟨x, hx, _⟩ := hstep i (lt_trans hij2 hjm)
    obtain ⟨x', hx', _⟩ := hstep j hjm
    rw [hx, hx'] at heq
    simp only [Option.getD_some] at heq
    have h1 : chainIter cs (j + (m0 - j)) a = some b := by
      rw [show j + (m0 - j) = m0 from by omega]
      exact hm0.2
    rw [chainIter_add, hx'] at h1
    simp only [Option.bind] at h1
    have h2 : chainIter cs (i + (m0 - j)) a = some b := by
      rw [chainIter_add, hx]
      simp only [Option.bind]
      rw [heq]
      exact h1
    exact Nat.find_min h (show i + (m0 - j) < m0 from by omega) ⟨by omega, h2⟩
  have him := Finset.mem_range.mp hi
  have hjm := Finset.mem_range.mp hj
  rcases Nat.lt_trichotomy i j with hlt | heq2 | hgt2
  · exact key i j hlt hjm hgij
  · exact hij heq2
  · exact key j i hgt2 him hgij.symm

/-- C7 amended.  `isSubtype` tests reflexivity before anything else, so
`isSubtype(a, a)` is true for every name including `Void`; for `a ≠ b` it
is false when either name is the capitalized `"Void"` (the lowercase
spelling is not special-cased) or when either name is not a declared
class; otherwise it is true exactly when repeatedly following `superName`
links from `a` reaches `b` (the embedded walk's `classes.length` fuel
suffices: a minimal chain visits distinct declared classes). -/
theorem C7_amended_isSubtype_reflexive_first :
    (∀ (classes : List (String × TCClassInfo)) (a : String),
      isSubtype classes a a = true) ∧
    (∀ (classes : List (String × TCClassInfo)) (a b : String),
      a ≠ b → (a = "Void" ∨ b = "Void") → isSubtype classes a b = false) ∧
    (∀ (classes : List (String × TCClassInfo)) (a b : String),
      a ≠ b → a ≠ "Void" → b ≠ "Void" →
      (isSubtype classes a b = true ↔
        (alHas classes a = true ∧ alHas classes b = true ∧
          SuperReaches classes a b))) := by
  refine ⟨?_, ?_, ?_⟩
  · intro classes a
    simp [isSubtype]
  · intro classes a b hne hv
    simp [isSubtype, hne, hv]
  · intro classes a b hne hva hvb
    have hcond : ¬(a = "Void" ∨ b = "Void") := by tauto
    simp only [isSubtype, if_neg hne, if_neg hcond]
    by_cases hhas : alHas classes a = true ∧ alHas classes b = true
    · rw [if_neg (not_not_intro hhas)]
      simp only [hhas.1, hhas.2, true_and]
      constructor
      · intro hw
        cases hsn : superNameOf classes a with
        | none => rw [hsn] at hw; simp [superWalk] at hw
        | some y =>
            rw [hsn] at hw
            obtain ⟨k, hk, hc⟩ := (superWalk_true_iff classes b classes.length y).mp hw
            have hc1 : chainIter classes (k + 1) a = some b := by
              simp [chainIter, hsn, hc]
            exact chain_superReaches classes (k + 1) a b (Nat.succ_pos k) hc1
      · intro hr
        obtain ⟨m, hm, hle, hc⟩ :=
          chain_shrink_le_length classes a b (superReaches_chain classes hr)
        obtain ⟨k, rfl⟩ : ∃ k, m = k + 1 := ⟨m - 1, by omega⟩
        simp only [chainIter] at hc
        cases hsn : superNameOf classes a with
        | none => rw [hsn] at hc; exact absurd hc (by simp)
        | some y =>
            rw [hsn] at hc
            exact (superWalk_true_iff classes b classes.length y).mpr
              ⟨k, by omega, hc⟩
    · rw [if_pos hhas]
      constructor
      · intro hfalse
        exact absurd hfalse (by simp)
      · rintro ⟨h1, h2, _⟩
        exact absurd ⟨h1, h2⟩ hhas

/-- Witness for C7: `A extends B` is a subtype of `B`. -/
theorem C7_amended_isSubtype_reflexive_first_witness :
    isSubtype twoClassTable "A" "B" = true :=
  (C7_amended_isSubtype_reflexive_first.2.2 twoClassTable "A" "B" (by decide) (by decide) (by decide)).mpr
    ⟨rfl, rfl, SuperReaches.direct rfl⟩

end Oxlang
